import Mathlib

/-!
# DonateAPI: job store and job lifecycle handlers

A shallow embedding of `state/jobReader.go` (the cached, file-backed job store)
and of the handlers of `routerJob.go` (create, delete, checkout, checkin, get),
followed by the properties established about them.

Conventions of the embedding

* A Go `map[string]T` is a `Finmap` with `String` keys; a nil map and an empty
  map are both `∅` (the code only ever takes `len` of a possibly nil map).
* A Go slice of strings is a `List String`.
* `panic` is the `Except.error` outcome of a store operation.
* A handler is a function from the snapshots held by the two stores and the
  request to the response written and the snapshots left behind. Calls are
  executed one at a time; `state.LogRequest` only logs and is left out.
-/

namespace DonateAPI

/-! ## Data model -/

/-- Record `state.Job`, with the five fields that `newJob` fills in. -/
structure Job where
  ID : String
  Description : String
  ImageLocation : String
  Author : String
  Runner : String
deriving DecidableEq, Repr

/-- Modelled from the spec: the declaration of `state.User` is not among the
sources. The handlers use the fields `Username`, `Authored` and `Running`; the
spec adds the password credential checked at authentication. -/
structure User where
  Username : String
  Password : String
  Authored : List String
  Running : List String
deriving DecidableEq, Repr

/-- Go type `map[string]Job`. -/
abbrev JobMap := Finmap (fun _ : String => Job)

/-- Go type of the user snapshot, a map from username to user record. -/
abbrev UserMap := Finmap (fun _ : String => User)

/-- Request body of `POST /jobs` once decoded (`postJobStruct`). -/
structure postJobStruct where
  Description : String
  ImageLocation : String
deriving DecidableEq, Repr

/-- Function `newJob`; `now` is the value of `time.Now().UnixNano()` and the
identifier is its decimal rendering (`fmt.Sprintf("%d", ...)`). -/
def newJob (s : postJobStruct) (author : String) (now : Int) : Job :=
  { ID := toString now
    Description := s.Description
    ImageLocation := s.ImageLocation
    Author := author
    Runner := "" }

/-! ## Responses -/

/-- What a handler writes to the client. The error helpers `unauthorized`,
`badRequest` and `unsupportedMediaType` are named as the handlers call them;
the success constructors carry the payload of the JSON body written. -/
inductive Response where
  | unauthorized
  | badRequest (msg : String)
  | unsupportedMediaType
  | success
  | successCreated (createdId : String)
  | successChecked (checkedId : String)
  | jobJSON (job : Job)
  | jobsJSON (jobs : JobMap)
deriving DecidableEq

/-! ## Job lifecycle handlers -/

/-- Snapshots held by `state.JobState` and `state.UserState` between two calls:
what `Read()` hands out and `Write` replaces. -/
structure State where
  jobs : JobMap
  users : UserMap
deriving DecidableEq

/-- Modelled from the spec: `state.UserState.AuthUser` is not among the sources.
It looks the username up in the user snapshot and accepts the request when the
stored password credential is the one presented, returning the stored record. -/
def AuthUser (users : UserMap) (username pass : String) : Option User :=
  match users.lookup username with
  | some user => if user.Password = pass then some user else none
  | none => none

/-- Handler `getJobs`: the whole job snapshot. -/
def getJobs (s : State) : Response :=
  .jobsJSON s.jobs

/-- Handler `getJob`: one entry of the job snapshot. -/
def getJob (s : State) (id : String) : Response :=
  match s.jobs.lookup id with
  | none => .badRequest "Id does not exist"
  | some job => .jobJSON job

/-- Everything `postJob` reads from the request and from the clock. -/
structure PostJobRequest where
  /-- Result of `r.BasicAuth()`: `none` when the header is absent or malformed. -/
  basicAuth : Option (String × String)
  /-- Error of `ioutil.ReadAll(r.Body)`, if any. -/
  bodyErr : Option String
  /-- Header `Content-Type`. -/
  contentType : String
  /-- Result of `json.Unmarshal(bodyBytes, &jobData)`. -/
  jobData : Except String postJobStruct
  /-- Value of `time.Now().UnixNano()` read by `newJob`. -/
  now : Int

/-- Handler `postJob`. -/
def postJob (s : State) (r : PostJobRequest) : Response × State :=
  match r.basicAuth with
  | none => (.unauthorized, s)
  | some (username, pass) =>
    match AuthUser s.users username pass with
    | none => (.unauthorized, s)
    | some user =>
      match r.bodyErr with
      | some err => (.badRequest err, s)
      | none =>
        if r.contentType ≠ "application/json" then (.unsupportedMediaType, s)
        else
          match r.jobData with
          | .error err => (.badRequest err, s)
          | .ok jobData =>
            let job := newJob jobData user.Username r.now
            if job.ID ∈ s.jobs then (.badRequest "Job already exists", s)
            else
              let jobs := s.jobs.insert job.ID job
              let user := { user with Authored := user.Authored ++ [job.ID] }
              let users := s.users.insert user.Username user
              (.successCreated job.ID, { jobs := jobs, users := users })

/-- Handler `deleteJob`; `auth` is the result of `r.BasicAuth()` and `id` the
path variable. -/
def deleteJob (s : State) (auth : Option (String × String)) (id : String) :
    Response × State :=
  match auth with
  | none => (.unauthorized, s)
  | some (username, pass) =>
    match AuthUser s.users username pass with
    | none => (.unauthorized, s)
    | some user =>
      match s.jobs.lookup id with
      | none => (.badRequest "Id does not exist", s)
      | some job =>
        if job.Author ≠ user.Username then (.unauthorized, s)
        else (.success, { s with jobs := s.jobs.erase job.ID })

/-- Handler `putJobCheckout`. -/
def putJobCheckout (s : State) (auth : Option (String × String)) (id : String) :
    Response × State :=
  match auth with
  | none => (.unauthorized, s)
  | some (username, pass) =>
    match AuthUser s.users username pass with
    | none => (.unauthorized, s)
    | some user =>
      match s.jobs.lookup id with
      | none => (.badRequest "Id does not exist", s)
      | some job =>
        if job.Runner ≠ "" then (.badRequest "This job is already being run", s)
        else
          let job := { job with Runner := username }
          let jobs := s.jobs.insert id job
          let user := { user with Running := user.Running ++ [id] }
          let users := s.users.insert username user
          (.successChecked id, { jobs := jobs, users := users })

/-- The loop of `putJobCheckin` over `user.Running`: at the first index `i`
holding `id`, the last element is copied to position `i` and the slice is
shortened by one; a slice without `id` is left as it is. -/
def removeRunning (id : String) (running : List String) : List String :=
  let i := running.indexOf id
  if i < running.length then (running.set i (running.getLastD "")).dropLast
  else running

/-- Handler `putJobCheckin`. -/
def putJobCheckin (s : State) (auth : Option (String × String)) (id : String) :
    Response × State :=
  match auth with
  | none => (.unauthorized, s)
  | some (username, pass) =>
    match AuthUser s.users username pass with
    | none => (.unauthorized, s)
    | some user =>
      match s.jobs.lookup id with
      | none => (.badRequest "Id does not exist", s)
      | some job =>
        if job.Runner ≠ username then
          (.badRequest "Your are not currently running this job", s)
        else
          let job := { job with Runner := "" }
          let jobs := s.jobs.insert job.ID job
          let user := { user with Running := removeRunning id user.Running }
          let users := s.users.insert username user
          (.successChecked id, { jobs := jobs, users := users })

/-! ## The job store (`state/jobReader.go`) -/

/-- The files the store touches: `content p` is the text of the file at path
`p` (`none` when there is no such file) and `readOnly p` says that the file at
`p` can be neither created nor written (missing directory, permissions). -/
structure FileSystem where
  content : String → Option String
  readOnly : String → Bool

/-- Call `ioutil.ReadFile`: the text of the file, `none` for the error returned
when the file does not exist. -/
def FileSystem.ReadFile (fs : FileSystem) (p : String) : Option String :=
  fs.content p

/-- Call `ioutil.WriteFile`: replaces the whole text of the file, creating it
when absent; `none` for the error returned when the path cannot be written. -/
def FileSystem.WriteFile (fs : FileSystem) (p data : String) : Option FileSystem :=
  if fs.readOnly p then none
  else some { fs with content := Function.update fs.content p (some data) }

/-- Call `os.OpenFile(p, os.O_RDONLY|os.O_CREATE, 0666)` as `newJobsReader`
uses it: an absent file is created empty when that is possible; the handle and
the error are both dropped by the caller. -/
def FileSystem.OpenFile (fs : FileSystem) (p : String) : FileSystem :=
  match fs.content p with
  | some _ => fs
  | none =>
    if fs.readOnly p then fs
    else { fs with content := Function.update fs.content p (some "") }

/-- The two functions of `encoding/json` the store calls, taken as parameters.
`MarshalIndent jobs` is the text produced, `none` when an error is returned.
`Unmarshal file` is the value left in the target `var jobs map[string]Job`
(a nil target is `∅`) together with whether an error was returned. -/
structure JsonCodec where
  MarshalIndent : JobMap → Option String
  Unmarshal : String → JobMap × Bool

/-- The three `panic` calls of the store. -/
inductive Panic where
  | openingFile (path : String)
  | marshalingJobs (jobs : JobMap)
  | writingToFile (path : String)
deriving DecidableEq

/-- Struct `jobReader`; the mutex plays no part when calls are sequential. -/
structure jobReader where
  path : String
  cache : JobMap
deriving DecidableEq

/-- Constructor `newJobsReader`. -/
def newJobsReader (fs : FileSystem) (p : String) : jobReader × FileSystem :=
  ({ path := p, cache := ∅ }, fs.OpenFile p)

/-- Method `jobReader.Read`: the mapping returned and the reader afterwards. -/
def jobReader.Read (json : JsonCodec) (r : jobReader) (fs : FileSystem) :
    Except Panic (JobMap × jobReader) :=
  if 0 < r.cache.keys.card then .ok (r.cache, r)
  else
    match fs.ReadFile r.path with
    | none => .error (.openingFile r.path)
    | some file =>
      let jobs := (json.Unmarshal file).1
      let jobs := if jobs.keys.card = 0 then ∅ else jobs
      .ok (jobs, { r with cache := jobs })

/-- Method `jobReader.Write`: the reader and the files afterwards. -/
def jobReader.Write (json : JsonCodec) (r : jobReader) (fs : FileSystem)
    (jobs : JobMap) : Except Panic (jobReader × FileSystem) :=
  match json.MarshalIndent jobs with
  | none => .error (.marshalingJobs jobs)
  | some file =>
    match fs.WriteFile r.path file with
    | none => .error (.writingToFile r.path)
    | some fs' => .ok ({ r with cache := jobs }, fs')

/-- A stand-in for `encoding/json` at which the theorems are applied to concrete
stores. Encoding never fails (the records hold strings only); the text given
for a non-empty mapping is a placeholder that nothing below decodes. Decoding
answers as the real decoder does on the texts used below: the text of the empty
object decodes to the empty mapping, and the empty input or text that is not
JSON is an error that leaves the target nil. -/
def sampleJson : JsonCodec where
  MarshalIndent := fun jobs => some (if jobs = ∅ then "\x7b\x7d" else "\x7b \"7\": ... \x7d")
  Unmarshal := fun file => if file = "\x7b\x7d" then (∅, false) else (∅, true)

/-- A file system without any file, in which files can be created. -/
def noFiles : FileSystem where
  content := fun _ => none
  readOnly := fun _ => false

/-- A file system without any file, in which no file can be created (the
directory of the data files does not exist). -/
def noDirectory : FileSystem where
  content := fun _ => none
  readOnly := fun _ => true

/-- A file system holding one file at `p` with text `data`. -/
def oneFile (p data : String) : FileSystem where
  content := fun q => if q = p then some data else none
  readOnly := fun _ => false

/-- A job used in the concrete examples. -/
def sampleJob (id runner : String) : Job :=
  { ID := id, Description := "fix fence", ImageLocation := "img://1",
    Author := "alice", Runner := runner }

/-- A user used in the concrete examples, with password `pw`. -/
def sampleUser (name : String) (running : List String) : User :=
  { Username := name, Password := "pw", Authored := [], Running := running }

/-! ## Sequences of calls and the cross-store predicates -/

/-- One call of a mutating handler, with everything it reads from the request. -/
inductive Call where
  | create (r : PostJobRequest)
  | delete (auth : Option (String × String)) (id : String)
  | checkout (auth : Option (String × String)) (id : String)
  | checkin (auth : Option (String × String)) (id : String)

/-- The snapshots left behind by one call. -/
def step (s : State) : Call → State
  | .create r => (postJob s r).2
  | .delete auth id => (deleteJob s auth id).2
  | .checkout auth id => (putJobCheckout s auth id).2
  | .checkin auth id => (putJobCheckin s auth id).2

/-- The snapshots left behind by a sequence of calls executed one at a time. -/
def run (s : State) (calls : List Call) : State :=
  calls.foldl step s

/-- The identifiers generated by the `create` calls of a sequence, in order. -/
def createdIds : List Call → List String
  | [] => []
  | .create r :: calls => toString r.now :: createdIds calls
  | _ :: calls => createdIds calls

/-- Every job record is stored under its own identifier. -/
def JobsKeyed (jobs : JobMap) : Prop :=
  ∀ k job, jobs.lookup k = some job → job.ID = k

/-- Every user record is stored under its own username. -/
def UsersKeyed (users : UserMap) : Prop :=
  ∀ k user, users.lookup k = some user → user.Username = k

/-- Empty stores: no job, and a user store keyed by username in which every
running sequence is empty. -/
def EmptyStores (s : State) : Prop :=
  s.jobs = ∅ ∧ UsersKeyed s.users ∧
    ∀ k user, s.users.lookup k = some user → user.Running = []

/-- User `u` holds `id` in the running sequence of the record stored for `u`. -/
def Runs (users : UserMap) (u id : String) : Prop :=
  ∃ user, users.lookup u = some user ∧ id ∈ user.Running

/-- The cross-store invariant as stated in the data model: an identifier found
in the running sequence of a user is found in no other user's, and the job with
that identifier has that user as its runner. -/
def RunningConsistent (s : State) : Prop :=
  ∀ id u, Runs s.users u id →
    (∀ v, Runs s.users v id → v = u) ∧
    ∃ job, s.jobs.lookup id = some job ∧ job.Runner = u

/-- The cross-store invariant restricted to the jobs still in the job store: an
identifier found in the running sequence of a user is found in no other user's,
and if a job is stored under that identifier then its runner is that user. -/
def RunningConsistentLive (s : State) : Prop :=
  ∀ id u, Runs s.users u id →
    (∀ v, Runs s.users v id → v = u) ∧
    ∀ job, s.jobs.lookup id = some job → job.Runner = u

/-- The converse invariant: a job with a non-empty runner carries the
identifier it is stored under, and that identifier is in the running sequence
of its runner. -/
def NoClaimLost (s : State) : Prop :=
  ∀ id job, s.jobs.lookup id = some job → job.Runner ≠ "" →
    job.ID = id ∧ Runs s.users job.Runner id

/-- Users `alice`, `bob` and `carol`, nobody running anything. -/
def sampleUsers : UserMap :=
  Finmap.insert "alice" (sampleUser "alice" [])
    (Finmap.insert "bob" (sampleUser "bob" [])
      (Finmap.insert "carol" (sampleUser "carol" []) ∅))

/-- No job, three users. -/
def emptyState : State :=
  { jobs := ∅, users := sampleUsers }

/-- One unclaimed job `7` authored by `alice`, three users. -/
def sampleState : State :=
  { jobs := Finmap.singleton "7" (sampleJob "7" ""), users := sampleUsers }

/-- One unclaimed job `7`, and a user store in which a user is registered under
the empty username next to `bob`. -/
def sentinelState : State :=
  { jobs := Finmap.singleton "7" (sampleJob "7" "")
    users := Finmap.insert "" (sampleUser "" [])
      (Finmap.singleton "bob" (sampleUser "bob" [])) }

/-- One unclaimed job `7`, while the running sequence of `bob` already holds
`7`. -/
def staleState : State :=
  { jobs := Finmap.singleton "7" (sampleJob "7" "")
    users := Finmap.singleton "bob" (sampleUser "bob" ["7"]) }

/-- Two entries authored by `alice`, under the keys `7` and `9`, both records
carrying the identifier `9`: the entry under `7` is not stored under its own
identifier. Three users. -/
def misKeyedState : State :=
  { jobs := Finmap.insert "7" (sampleJob "9" "")
      (Finmap.singleton "9" (sampleJob "9" ""))
    users := sampleUsers }

/-- A well-formed `POST /jobs` request by `alice` at clock reading `now`. -/
def sampleCreate (now : Int) : PostJobRequest :=
  { basicAuth := some ("alice", "pw"), bodyErr := none
    contentType := "application/json"
    jobData := .ok { Description := "fix fence", ImageLocation := "img://1" }
    now := now }

/-- The invariant carried along a sequence of calls to establish
`RunningConsistentLive`; `used` lists the identifiers handed out so far. Records
are stored under their own key, nobody is registered under the empty username,
every identifier in the job store or in a running sequence has been handed out,
and no running sequence holds an identifier twice. -/
def Strengthened (s : State) (used : List String) : Prop :=
  JobsKeyed s.jobs ∧ UsersKeyed s.users ∧ "" ∉ s.users ∧
  (∀ k, k ∈ s.jobs → k ∈ used) ∧
  (∀ u x, Runs s.users u x → x ∈ used) ∧
  (∀ u user, s.users.lookup u = some user → user.Running.Nodup) ∧
  RunningConsistentLive s

/-- The calls of the scenario create, checkout by `bob`, delete by `alice`. -/
def danglingCalls : List Call :=
  [.create (sampleCreate 7), .checkout (some ("bob", "pw")) "7",
   .delete (some ("alice", "pw")) "7"]

/-- The calls of the scenario create, checkout by `bob`, create, checkin by
`bob`, checkout by `carol`. -/
def sampleCalls : List Call :=
  [.create (sampleCreate 7), .checkout (some ("bob", "pw")) "7",
   .create (sampleCreate 8), .checkin (some ("bob", "pw")) "7",
   .checkout (some ("carol", "pw")) "8"]

/-- No job, and the users `alice`, `bob` and one registered under the empty
username, nobody running anything. -/
def sentinelEmptyState : State :=
  { jobs := ∅
    users := Finmap.insert "alice" (sampleUser "alice" [])
      (Finmap.insert "bob" (sampleUser "bob" [])
        (Finmap.insert "" (sampleUser "" []) ∅)) }

/-- The calls of the scenario create, checkout by the user with the empty
username, checkout by `bob`. -/
def sentinelCalls : List Call :=
  [.create (sampleCreate 7), .checkout (some ("", "pw")) "7",
   .checkout (some ("bob", "pw")) "7"]

/-! ## Properties of the job store -/

theorem keys_card_pos_iff (m : JobMap) : 0 < m.keys.card ↔ m ≠ ∅ := by
  rw [Finset.card_pos]
  constructor
  · rintro ⟨k, hk⟩ h
    subst h
    simp at hk
  · intro h
    by_contra hne
    apply h
    apply Finmap.ext_lookup
    intro k
    have hk : k ∉ m := by
      intro hm
      exact hne ⟨k, Finmap.mem_keys.mpr hm⟩
    rw [Finmap.lookup_eq_none.mpr hk, Finmap.lookup_empty]

theorem keys_card_zero_iff (m : JobMap) : m.keys.card = 0 ↔ m = ∅ := by
  have := keys_card_pos_iff m
  constructor
  · intro h
    by_contra hne
    have := this.mpr hne
    omega
  · intro h
    subst h
    simp

/-- Reading with a non-empty cache returns the cache and touches nothing. -/
theorem Read_of_cache (json : JsonCodec) (r : jobReader) (fs : FileSystem)
    (h : r.cache ≠ ∅) : r.Read json fs = .ok (r.cache, r) := by
  unfold jobReader.Read
  rw [if_pos ((keys_card_pos_iff _).mpr h)]

/-- Reading with an empty cache and an existing file never panics: the decode
error is not looked at. -/
theorem Read_of_file (json : JsonCodec) (r : jobReader) (fs : FileSystem)
    (file : String) (hc : r.cache = ∅) (hf : fs.content r.path = some file) :
    r.Read json fs
      = .ok ((json.Unmarshal file).1, { r with cache := (json.Unmarshal file).1 }) := by
  unfold jobReader.Read
  have h0 : ¬ 0 < r.cache.keys.card := by
    rw [keys_card_pos_iff]; simp [hc]
  rw [if_neg h0]
  simp only [FileSystem.ReadFile, hf]
  by_cases he : (json.Unmarshal file).1.keys.card = 0
  · have := (keys_card_zero_iff _).mp he
    simp [this]
  · simp [he]

/-- The snapshot abstraction used for the handlers: a `Read()` that follows a
`Write(m)` returns `m`, from the cache when `m` is not empty and from the file
otherwise, provided the decoder reads the text written for the empty mapping
back as the empty mapping. -/
theorem Read_after_Write (json : JsonCodec) (r r' : jobReader) (fs fs' : FileSystem)
    (m : JobMap) (file : String) (hj : json.MarshalIndent m = some file)
    (hempty : m = ∅ → (json.Unmarshal file).1 = ∅)
    (hw : r.Write json fs m = .ok (r', fs')) :
    r'.Read json fs' = .ok (m, r') := by
  unfold jobReader.Write at hw
  simp only [hj] at hw
  cases hfs : fs.WriteFile r.path file with
  | none => simp [hfs] at hw
  | some fs2 =>
    simp only [hfs] at hw
    injection hw with hw
    injection hw with h1 h2
    subst h1 h2
    by_cases hm : m = ∅
    · have hcontent : fs2.content r.path = some file := by
        unfold FileSystem.WriteFile at hfs
        by_cases hro : fs.readOnly r.path = true
        · simp [hro] at hfs
        · simp only [hro] at hfs
          injection hfs with hfs
          subst hfs
          simp
      have hread := Read_of_file json { r with cache := m } fs2 file hm hcontent
      rw [hread, hempty hm, hm]
    · exact Read_of_cache json _ fs2 hm

/-- C5 (store round trip). For every non-empty mapping `m` and every prior
reader and file system: whenever `Write(m)` returns, the `Read()` that follows
returns `m`; and `Write(m)` does return as soon as the mapping can be encoded
and the file can be written. -/
theorem store_round_trip (json : JsonCodec) (r : jobReader) (fs : FileSystem)
    (m : JobMap) (hm : m ≠ ∅) :
    (∀ r' fs', r.Write json fs m = .ok (r', fs') → r'.Read json fs' = .ok (m, r')) ∧
    (∀ file, json.MarshalIndent m = some file → fs.readOnly r.path = false →
      ∃ r' fs', r.Write json fs m = .ok (r', fs')) := by
  constructor
  · intro r' fs' hw
    unfold jobReader.Write at hw
    cases hj : json.MarshalIndent m with
    | none => simp [hj] at hw
    | some file =>
      simp only [hj] at hw
      cases hfs : fs.WriteFile r.path file with
      | none => simp [hfs] at hw
      | some fs2 =>
        simp only [hfs] at hw
        injection hw with hw
        injection hw with h1 h2
        subst h1
        exact Read_of_cache json _ fs' hm
  · intro file hj hro
    unfold jobReader.Write
    simp [hj, FileSystem.WriteFile, hro]

/-- Witness of `store_round_trip`: a one-job mapping written over an empty
store and read back. -/
theorem store_round_trip_witness :
    (Finmap.singleton "7" (sampleJob "7" "") : JobMap) ≠ ∅ ∧
    ∃ r' fs', jobReader.Write sampleJson ⟨"./data/Jobs.json", ∅⟩ noFiles
        (Finmap.singleton "7" (sampleJob "7" "")) = .ok (r', fs') ∧
      r'.Read sampleJson fs' = .ok (Finmap.singleton "7" (sampleJob "7" ""), r') := by
  have hne : (Finmap.singleton "7" (sampleJob "7" "") : JobMap) ≠ ∅ := by decide
  have h := store_round_trip sampleJson ⟨"./data/Jobs.json", ∅⟩ noFiles _ hne
  obtain ⟨r', fs', hw⟩ := h.2 _ rfl rfl
  exact ⟨hne, r', fs', hw, h.1 r' fs' hw⟩

/-- C6 as stated fails: a reader with an empty cache whose backing file is
missing panics on `Read()` instead of returning the empty mapping. This is so
for a reader whose file has gone missing, and for the reader `newJobsReader`
returns when the missing file cannot be created, the error of `os.OpenFile`
being dropped. -/
theorem Read_missing_file_panics :
    jobReader.Read sampleJson ⟨"./data/Jobs.json", ∅⟩ noFiles
      = .error (.openingFile "./data/Jobs.json") ∧
    (newJobsReader noDirectory "./data/Jobs.json").1.cache = ∅ ∧
    (newJobsReader noDirectory "./data/Jobs.json").2.content "./data/Jobs.json" = none ∧
    (newJobsReader noDirectory "./data/Jobs.json").1.Read sampleJson
        (newJobsReader noDirectory "./data/Jobs.json").2
      = .error (.openingFile "./data/Jobs.json") :=
  ⟨rfl, rfl, rfl, rfl⟩

/-- C6 (empty bootstrap), amended. With an empty cache, `Read()` returns the
empty mapping without panicking when the backing file exists and is empty; and
a reader built by `newJobsReader` over a missing file that can be created reads
the empty mapping, since the constructor creates the file empty; with the
backing file missing, `Read()` panics. The decoder is assumed to leave its
target nil on the empty input, as `encoding/json` does. -/
theorem empty_bootstrap (json : JsonCodec) (hjson : (json.Unmarshal "").1 = ∅) :
    (∀ (r : jobReader) (fs : FileSystem), r.cache = ∅ → fs.content r.path = some "" →
      r.Read json fs = .ok (∅, r)) ∧
    (∀ (fs : FileSystem) (p : String), fs.content p = none → fs.readOnly p = false →
      (newJobsReader fs p).1.Read json (newJobsReader fs p).2
        = .ok (∅, (newJobsReader fs p).1)) ∧
    (∀ (r : jobReader) (fs : FileSystem), r.cache = ∅ → fs.content r.path = none →
      r.Read json fs = .error (.openingFile r.path)) := by
  have key : ∀ (r : jobReader) (fs : FileSystem), r.cache = ∅ →
      fs.content r.path = some "" → r.Read json fs = .ok (∅, r) := by
    intro r fs hc hf
    rw [Read_of_file json r fs "" hc hf, hjson]
    cases r
    simp only at hc
    simp [hc]
  refine ⟨key, ?_, ?_⟩
  · intro fs p hnone hro
    apply key
    · rfl
    · simp [newJobsReader, FileSystem.OpenFile, hnone, hro]
  · intro r fs hc hf
    unfold jobReader.Read
    have h0 : ¬ 0 < r.cache.keys.card := by
      rw [keys_card_pos_iff]; simp [hc]
    rw [if_neg h0]
    simp only [FileSystem.ReadFile, hf]

/-- Witness of `empty_bootstrap`: an existing empty file, and a reader built
over a missing one. -/
theorem empty_bootstrap_witness :
    (sampleJson.Unmarshal "").1 = ∅ ∧
    jobReader.Read sampleJson ⟨"./data/Jobs.json", ∅⟩ (oneFile "./data/Jobs.json" "")
      = .ok (∅, ⟨"./data/Jobs.json", ∅⟩) ∧
    (newJobsReader noFiles "./data/Jobs.json").1.Read sampleJson
        (newJobsReader noFiles "./data/Jobs.json").2
      = .ok (∅, (newJobsReader noFiles "./data/Jobs.json").1) :=
  ⟨rfl,
   (empty_bootstrap sampleJson rfl).1 ⟨"./data/Jobs.json", ∅⟩
     (oneFile "./data/Jobs.json" "") rfl (by simp [oneFile]),
   (empty_bootstrap sampleJson rfl).2.1 noFiles "./data/Jobs.json" rfl rfl⟩

theorem AuthUser_eq_some {users : UserMap} {username pass : String} {user : User} :
    AuthUser users username pass = some user ↔
      users.lookup username = some user ∧ user.Password = pass := by
  unfold AuthUser
  cases h : users.lookup username with
  | none => simp
  | some u =>
    by_cases hp : u.Password = pass
    · simp only [hp, if_true, Option.some.injEq]
      constructor
      · intro e; subst e; exact ⟨rfl, hp⟩
      · intro e; exact e.1
    · simp only [hp, if_false, Option.some.injEq]
      constructor
      · intro e; cases e
      · rintro ⟨e, hp'⟩; subst e; exact absurd hp' hp

theorem putJobCheckout_success {s : State} {username pass id : String} {user : User}
    {job : Job} (hu : AuthUser s.users username pass = some user)
    (hjob : s.jobs.lookup id = some job) (hrun : job.Runner = "") :
    putJobCheckout s (some (username, pass)) id
      = (.successChecked id,
          { jobs := s.jobs.insert id { job with Runner := username },
            users := s.users.insert username
              { user with Running := user.Running ++ [id] } }) := by
  simp [putJobCheckout, hu, hjob, hrun]

theorem putJobCheckout_conflict {s : State} {username pass id : String} {user : User}
    {job : Job} (hu : AuthUser s.users username pass = some user)
    (hjob : s.jobs.lookup id = some job) (hrun : job.Runner ≠ "") :
    putJobCheckout s (some (username, pass)) id
      = (.badRequest "This job is already being run", s) := by
  simp [putJobCheckout, hu, hjob, hrun]

theorem putJobCheckin_success {s : State} {username pass id : String} {user : User}
    {job : Job} (hu : AuthUser s.users username pass = some user)
    (hjob : s.jobs.lookup id = some job) (hrun : job.Runner = username) :
    putJobCheckin s (some (username, pass)) id
      = (.successChecked id,
          { jobs := s.jobs.insert job.ID { job with Runner := "" },
            users := s.users.insert username
              { user with Running := removeRunning id user.Running } }) := by
  simp [putJobCheckin, hu, hjob, hrun]

theorem putJobCheckin_conflict {s : State} {username pass id : String} {user : User}
    {job : Job} (hu : AuthUser s.users username pass = some user)
    (hjob : s.jobs.lookup id = some job) (hrun : job.Runner ≠ username) :
    putJobCheckin s (some (username, pass)) id
      = (.badRequest "Your are not currently running this job", s) := by
  simp [putJobCheckin, hu, hjob, hrun]

theorem removeRunning_of_not_mem {id : String} {running : List String}
    (h : id ∉ running) : removeRunning id running = running := by
  unfold removeRunning
  have : ¬ running.indexOf id < running.length := by
    rw [List.indexOf_lt_length]; exact h
  simp only [this, if_false]

theorem getLastD_append_cons (front : List String) (x : String) (back : List String)
    (d : String) : (front ++ x :: back).getLastD d = back.getLastD x := by
  induction front generalizing d with
  | nil => rw [List.nil_append, List.getLastD_cons]
  | cons a front ih => rw [List.cons_append, List.getLastD_cons, ih]

theorem removeRunning_append_cons (id : String) (front back : List String)
    (h : id ∉ front) :
    removeRunning id (front ++ id :: back)
      = front ++ (back.getLastD id :: back).dropLast := by
  unfold removeRunning
  have hi : (front ++ id :: back).indexOf id = front.length := by
    rw [List.indexOf_append_of_not_mem h, List.indexOf_cons_self]; rfl
  have hlast : (front ++ id :: back).getLastD "" = back.getLastD id := by
    exact getLastD_append_cons front id back ""
  simp only [hi, hlast]
  have hlt : front.length < (front ++ id :: back).length := by simp
  rw [if_pos hlt, List.set_append_right _ _ (le_refl _)]
  simp [List.dropLast_append_cons]

theorem dropLast_getLastD_cons_perm (id : String) (back : List String) :
    ((back.getLastD id :: back).dropLast).Perm back := by
  rcases List.eq_nil_or_concat back with h | ⟨front, z, h⟩
  · subst h; simp
  · subst h
    rw [List.concat_eq_append, List.getLastD_concat]
    have : (z :: (front ++ [z])).dropLast = z :: front := by
      rw [← List.cons_append, List.dropLast_concat]
    rw [this]
    exact (List.perm_append_singleton z front).symm

/-- The loop of `putJobCheckin` removes one occurrence of `id`, the first one,
and keeps every other entry: its result is a permutation of `erase`. -/
theorem removeRunning_perm_erase (id : String) (running : List String) :
    (removeRunning id running).Perm (running.erase id) := by
  by_cases h : id ∈ running
  · obtain ⟨front, back, hsplit, hfront⟩ := List.eq_append_cons_of_mem h
    subst hsplit
    rw [removeRunning_append_cons id front back hfront,
      List.erase_append_right _ hfront, List.erase_cons_head]
    exact (dropLast_getLastD_cons_perm id back).append_left front
  · rw [removeRunning_of_not_mem h, List.erase_of_not_mem h]

theorem removeRunning_concat_self {id : String} {running : List String}
    (h : id ∉ running) : removeRunning id (running ++ [id]) = running := by
  rw [removeRunning_append_cons id running [] h]
  simp

theorem deleteJob_success {s : State} {username pass id : String} {user : User}
    {job : Job} (hu : AuthUser s.users username pass = some user)
    (hjob : s.jobs.lookup id = some job) (hauthor : job.Author = user.Username) :
    deleteJob s (some (username, pass)) id
      = (.success, { s with jobs := s.jobs.erase job.ID }) := by
  simp [deleteJob, hu, hjob, hauthor]

theorem postJob_success {s : State} {r : PostJobRequest} {username pass : String}
    {user : User} {jobData : postJobStruct}
    (hauth : r.basicAuth = some (username, pass))
    (hu : AuthUser s.users username pass = some user)
    (hbody : r.bodyErr = none) (hct : r.contentType = "application/json")
    (hdata : r.jobData = .ok jobData) (hfresh : toString r.now ∉ s.jobs) :
    postJob s r
      = (.successCreated (toString r.now),
          { jobs := s.jobs.insert (toString r.now) (newJob jobData user.Username r.now),
            users := s.users.insert user.Username
              { user with Authored := user.Authored ++ [toString r.now] } }) := by
  simp [postJob, hauth, hu, hbody, hct, hdata, newJob, hfresh]

theorem AuthUser_insert_running {users : UserMap} {k username pass : String}
    {user0 user : User} (running : List String)
    (hk : users.lookup k = some user0)
    (hu : AuthUser users username pass = some user) :
    ∃ user', AuthUser (users.insert k { user0 with Running := running }) username pass
        = some user' ∧ user'.Password = pass := by
  rw [AuthUser_eq_some] at hu
  by_cases hkey : username = k
  · subst hkey
    refine ⟨{ user0 with Running := running }, ?_, ?_⟩
    · rw [AuthUser_eq_some, Finmap.lookup_insert]
      have : user0 = user := by
        have := hk.symm.trans hu.1
        exact Option.some.inj this
      subst this
      exact ⟨rfl, hu.2⟩
    · have : user0 = user := Option.some.inj (hk.symm.trans hu.1)
      subst this
      exact hu.2
  · refine ⟨user, ?_, hu.2⟩
    rw [AuthUser_eq_some, Finmap.lookup_insert_of_ne _ hkey]
    exact hu

/-- C1 as stated fails: the user registered under the empty username checks the
unclaimed job `7` out, the runner field stays empty, and the checkout by `bob`
that follows succeeds instead of being refused. -/
theorem checkout_empty_username_not_exclusive :
    (sentinelState.jobs.lookup "7").map (fun job => job.Runner) = some "" ∧
    AuthUser sentinelState.users "" "pw" = some (sampleUser "" []) ∧
    AuthUser sentinelState.users "bob" "pw" = some (sampleUser "bob" []) ∧
    (putJobCheckout sentinelState (some ("", "pw")) "7").1 = .successChecked "7" ∧
    (putJobCheckout (putJobCheckout sentinelState (some ("", "pw")) "7").2
        (some ("bob", "pw")) "7").1 = .successChecked "7" := by
  decide

/-- C1 (checkout exclusivity, sequential), amended. For every snapshot holding
`id` with an empty runner and all authenticated users `A` and `B` where the
username `A` is not the empty string: the checkout by `A` succeeds and leaves
the runner of `id` equal to `A`, and the checkout by `B` that follows is
refused with "This job is already being run" (the Conflict outcome), leaving
the snapshots as they are; `B = A` is allowed. -/
theorem checkout_exclusive (s : State) (id A passA B passB : String)
    (userA userB : User) (job : Job)
    (hjob : s.jobs.lookup id = some job) (hrun : job.Runner = "")
    (hA : AuthUser s.users A passA = some userA)
    (hB : AuthUser s.users B passB = some userB)
    (hne : A ≠ "") :
    (putJobCheckout s (some (A, passA)) id).1 = .successChecked id ∧
    (putJobCheckout s (some (A, passA)) id).2.jobs.lookup id
      = some { job with Runner := A } ∧
    putJobCheckout (putJobCheckout s (some (A, passA)) id).2 (some (B, passB)) id
      = (.badRequest "This job is already being run",
          (putJobCheckout s (some (A, passA)) id).2) := by
  rw [putJobCheckout_success hA hjob hrun]
  refine ⟨rfl, ?_, ?_⟩
  · simp
  · obtain ⟨userB', hB', _⟩ :=
      AuthUser_insert_running (userA.Running ++ [id])
        ((AuthUser_eq_some.mp hA).1) hB
    have hjob' : (s.jobs.insert id { job with Runner := A }).lookup id
        = some { job with Runner := A } := Finmap.lookup_insert _
    exact putJobCheckout_conflict hB' hjob' (by simpa using hne)

/-- Witness of `checkout_exclusive`: `bob` then `carol` on job `7`. -/
theorem checkout_exclusive_witness :
    (putJobCheckout sampleState (some ("bob", "pw")) "7").1 = .successChecked "7" ∧
    (putJobCheckout sampleState (some ("bob", "pw")) "7").2.jobs.lookup "7"
      = some { sampleJob "7" "" with Runner := "bob" } ∧
    putJobCheckout (putJobCheckout sampleState (some ("bob", "pw")) "7").2
        (some ("carol", "pw")) "7"
      = (.badRequest "This job is already being run",
          (putJobCheckout sampleState (some ("bob", "pw")) "7").2) :=
  checkout_exclusive sampleState "7" "bob" "pw" "carol" "pw"
    (sampleUser "bob" []) (sampleUser "carol" []) (sampleJob "7" "")
    (by decide) (by decide) (by decide) (by decide) (by decide)

/-- C2 as stated fails in its last part: the runner of job `7` is empty and the
checkin by the user registered under the empty username succeeds. -/
theorem checkin_empty_username_accepted :
    (sentinelState.jobs.lookup "7").map (fun job => job.Runner) = some "" ∧
    AuthUser sentinelState.users "" "pw" = some (sampleUser "" []) ∧
    (putJobCheckin sentinelState (some ("", "pw")) "7").1 = .successChecked "7" := by
  decide

/-- C2 (checkin ownership), amended. For every snapshot holding `id` and every
authenticated requester `u`: if `u` is not the runner of the job, the checkin
is refused with "Your are not currently running this job" (the Conflict
outcome) and nothing changes; in particular the checkin of a job whose runner
is empty is refused for every requester whose username is not empty. -/
theorem checkin_ownership (s : State) (id u pass : String) (user : User) (job : Job)
    (hjob : s.jobs.lookup id = some job)
    (hu : AuthUser s.users u pass = some user) :
    (job.Runner ≠ u → putJobCheckin s (some (u, pass)) id
        = (.badRequest "Your are not currently running this job", s)) ∧
    (job.Runner = "" → u ≠ "" → putJobCheckin s (some (u, pass)) id
        = (.badRequest "Your are not currently running this job", s)) := by
  refine ⟨fun h => putJobCheckin_conflict hu hjob h, fun h0 hne => ?_⟩
  apply putJobCheckin_conflict hu hjob
  rw [h0]
  exact fun h => hne h.symm

/-- Witness of `checkin_ownership`: `bob` checks in the unclaimed job `7`. -/
theorem checkin_ownership_witness :
    putJobCheckin sampleState (some ("bob", "pw")) "7"
      = (.badRequest "Your are not currently running this job", sampleState) :=
  (checkin_ownership sampleState "7" "bob" "pw" (sampleUser "bob" [])
    (sampleJob "7" "") (by decide) (by decide)).1 (by decide)

/-- C3 as stated fails. In `staleState` job `7` exists with an empty runner
while the running sequence of `bob` already holds `7`: checkout and checkin by
`bob` both succeed and `7` is still in the running sequence of `bob`. Such a
state arises through the handlers themselves: in `sentinelState` a first
checkout by the user with the empty username leaves the runner empty, and after
a second checkout and a checkin by that user, both successful, the running
sequence of that user holds `7`. -/
theorem checkin_leaves_stale_entry :
    ((staleState.jobs.lookup "7").map (fun job => job.Runner) = some "" ∧
     (putJobCheckout staleState (some ("bob", "pw")) "7").1 = .successChecked "7" ∧
     (putJobCheckin (putJobCheckout staleState (some ("bob", "pw")) "7").2
        (some ("bob", "pw")) "7").1 = .successChecked "7" ∧
     ((putJobCheckin (putJobCheckout staleState (some ("bob", "pw")) "7").2
        (some ("bob", "pw")) "7").2.users.lookup "bob").map (fun user => user.Running)
       = some ["7"]) ∧
    ((((putJobCheckout sentinelState (some ("", "pw")) "7").2.jobs.lookup "7").map
        (fun job => job.Runner) = some "") ∧
     (putJobCheckout (putJobCheckout sentinelState (some ("", "pw")) "7").2
        (some ("", "pw")) "7").1 = .successChecked "7" ∧
     (putJobCheckin (putJobCheckout (putJobCheckout sentinelState
        (some ("", "pw")) "7").2 (some ("", "pw")) "7").2
        (some ("", "pw")) "7").1 = .successChecked "7" ∧
     ((putJobCheckin (putJobCheckout (putJobCheckout sentinelState
        (some ("", "pw")) "7").2 (some ("", "pw")) "7").2
        (some ("", "pw")) "7").2.users.lookup "").map (fun user => user.Running)
       = some ["7"]) := by
  decide

/-- C3 (checkin cleans the running list), amended. For every state in which
job `id` exists, stored under its own identifier, with an empty runner, and
every authenticated user `A` whose running sequence does not already hold `id`:
the checkout by `A` and the checkin by `A` that follows both succeed, after
which the running sequence of `A` does not hold `id` (it is the sequence `A`
started with) and the runner of the job is empty. -/
theorem checkin_cleans_running (s : State) (id A pass : String) (user : User)
    (job : Job) (hjob : s.jobs.lookup id = some job) (hid : job.ID = id)
    (hrun : job.Runner = "") (hA : AuthUser s.users A pass = some user)
    (hnot : id ∉ user.Running) :
    (putJobCheckout s (some (A, pass)) id).1 = .successChecked id ∧
    (putJobCheckin (putJobCheckout s (some (A, pass)) id).2 (some (A, pass)) id).1
      = .successChecked id ∧
    (∃ user', (putJobCheckin (putJobCheckout s (some (A, pass)) id).2
        (some (A, pass)) id).2.users.lookup A = some user' ∧
      id ∉ user'.Running ∧ user'.Running = user.Running) ∧
    (∃ job', (putJobCheckin (putJobCheckout s (some (A, pass)) id).2
        (some (A, pass)) id).2.jobs.lookup id = some job' ∧ job'.Runner = "") := by
  rw [putJobCheckout_success hA hjob hrun]
  have hA' : AuthUser (s.users.insert A { user with Running := user.Running ++ [id] })
      A pass = some { user with Running := user.Running ++ [id] } := by
    rw [AuthUser_eq_some, Finmap.lookup_insert]
    exact ⟨rfl, (AuthUser_eq_some.mp hA).2⟩
  have hjob' : (s.jobs.insert id { job with Runner := A }).lookup id
      = some { job with Runner := A } := Finmap.lookup_insert _
  have hin := @putJobCheckin_success
    { jobs := s.jobs.insert id { job with Runner := A },
      users := s.users.insert A { user with Running := user.Running ++ [id] } }
    A pass id _ _ hA' hjob' rfl
  rw [hin]
  refine ⟨rfl, rfl, ⟨_, Finmap.lookup_insert _, ?_, ?_⟩,
    ⟨{ job with Runner := "" }, ?_, rfl⟩⟩
  · simp only [removeRunning_concat_self hnot]; exact hnot
  · simp only [removeRunning_concat_self hnot]
  · simp only [hid]; exact Finmap.lookup_insert _

/-- Witness of `checkin_cleans_running`: `bob` checks job `7` out and in. -/
theorem checkin_cleans_running_witness :
    (putJobCheckout sampleState (some ("bob", "pw")) "7").1 = .successChecked "7" ∧
    (putJobCheckin (putJobCheckout sampleState (some ("bob", "pw")) "7").2
      (some ("bob", "pw")) "7").1 = .successChecked "7" ∧
    (∃ user', (putJobCheckin (putJobCheckout sampleState (some ("bob", "pw")) "7").2
        (some ("bob", "pw")) "7").2.users.lookup "bob" = some user' ∧
      "7" ∉ user'.Running ∧ user'.Running = (sampleUser "bob" []).Running) ∧
    (∃ job', (putJobCheckin (putJobCheckout sampleState (some ("bob", "pw")) "7").2
        (some ("bob", "pw")) "7").2.jobs.lookup "7" = some job' ∧ job'.Runner = "") :=
  checkin_cleans_running sampleState "7" "bob" "pw" (sampleUser "bob" [])
    (sampleJob "7" "") (by decide) (by decide) (by decide) (by decide) (by decide)

/-- C4 as stated fails. In `misKeyedState` the entry under `7` is authored by
`alice` and its record carries the identifier `9`: the delete of `7` by `alice`
answers success, the entry under `7` is still there (a following `getJob`
returns it), and the entry under `9` is gone. -/
theorem delete_keeps_mis_keyed_entry :
    misKeyedState.jobs.lookup "7" = some (sampleJob "9" "") ∧
    misKeyedState.jobs.lookup "9" = some (sampleJob "9" "") ∧
    AuthUser misKeyedState.users "alice" "pw" = some (sampleUser "alice" []) ∧
    (deleteJob misKeyedState (some ("alice", "pw")) "7").1 = .success ∧
    (deleteJob misKeyedState (some ("alice", "pw")) "7").2.jobs.lookup "7"
      = some (sampleJob "9" "") ∧
    getJob (deleteJob misKeyedState (some ("alice", "pw")) "7").2 "7"
      = .jobJSON (sampleJob "9" "") ∧
    (deleteJob misKeyedState (some ("alice", "pw")) "7").2.jobs.lookup "9" = none := by
  decide

/-- C4 (delete authorization), amended. For every job snapshot and every
authenticated requester, named by the username of the record `AuthUser`
returns: a delete of an identifier absent from the snapshot is refused with
"Id does not exist" (NotFound), before authorship is looked at; for an entry
under `id`, a requester other than its author is refused with the
`unauthorized` response (Forbidden) and nothing changes, while the author
succeeds: the user snapshot is unchanged and the job snapshot loses the entry
stored under the identifier the record carries. When the record under `id`
carries the identifier `id`, the entry under `id` is gone, a following `getJob`
answers "Id does not exist" and `getJobs` lists the snapshot without it, and
every other entry is unchanged. -/
theorem delete_authorization (s : State) (id name pass : String) (user : User)
    (hu : AuthUser s.users name pass = some user) :
    (s.jobs.lookup id = none →
      deleteJob s (some (name, pass)) id = (.badRequest "Id does not exist", s)) ∧
    (∀ job, s.jobs.lookup id = some job →
      (user.Username ≠ job.Author →
        deleteJob s (some (name, pass)) id = (.unauthorized, s)) ∧
      (user.Username = job.Author →
        (deleteJob s (some (name, pass)) id).1 = .success ∧
        (deleteJob s (some (name, pass)) id).2.users = s.users ∧
        (deleteJob s (some (name, pass)) id).2.jobs = s.jobs.erase job.ID ∧
        (job.ID = id →
          (deleteJob s (some (name, pass)) id).2.jobs = s.jobs.erase id ∧
          (deleteJob s (some (name, pass)) id).2.jobs.lookup id = none ∧
          getJob (deleteJob s (some (name, pass)) id).2 id
            = .badRequest "Id does not exist" ∧
          getJobs (deleteJob s (some (name, pass)) id).2
            = .jobsJSON (s.jobs.erase id) ∧
          ∀ k, k ≠ id →
            (deleteJob s (some (name, pass)) id).2.jobs.lookup k
              = s.jobs.lookup k))) := by
  refine ⟨fun hnone => ?_, fun job hjob => ⟨fun hne => ?_, fun heq => ?_⟩⟩
  · simp [deleteJob, hu, hnone]
  · have : job.Author ≠ user.Username := fun h => hne h.symm
    simp [deleteJob, hu, hjob, this]
  · rw [deleteJob_success hu hjob heq.symm]
    refine ⟨rfl, rfl, rfl, fun hid => ?_⟩
    rw [hid]
    refine ⟨rfl, Finmap.lookup_erase _ _, ?_, rfl, fun k hk => ?_⟩
    · simp [getJob, Finmap.lookup_erase]
    · exact Finmap.lookup_erase_ne hk

/-- Witness of `delete_authorization`: `alice` deletes job `7`, `bob` is
refused, and `alice` deleting the absent job `8` is told so. -/
theorem delete_authorization_witness :
    ((deleteJob sampleState (some ("alice", "pw")) "7").1 = .success ∧
      (deleteJob sampleState (some ("alice", "pw")) "7").2.users = sampleState.users ∧
      (deleteJob sampleState (some ("alice", "pw")) "7").2.jobs
        = sampleState.jobs.erase "7" ∧
      (deleteJob sampleState (some ("alice", "pw")) "7").2.jobs.lookup "7" = none ∧
      getJob (deleteJob sampleState (some ("alice", "pw")) "7").2 "7"
        = .badRequest "Id does not exist" ∧
      getJobs (deleteJob sampleState (some ("alice", "pw")) "7").2
        = .jobsJSON (sampleState.jobs.erase "7") ∧
      ∀ k, k ≠ "7" →
        (deleteJob sampleState (some ("alice", "pw")) "7").2.jobs.lookup k
          = sampleState.jobs.lookup k) ∧
    deleteJob sampleState (some ("bob", "pw")) "7" = (.unauthorized, sampleState) ∧
    deleteJob sampleState (some ("alice", "pw")) "8"
      = (.badRequest "Id does not exist", sampleState) :=
  ⟨(fun h => ⟨h.1, h.2.1, (h.2.2.2 (by decide)).1, (h.2.2.2 (by decide)).2.1,
      (h.2.2.2 (by decide)).2.2.1, (h.2.2.2 (by decide)).2.2.2.1,
      (h.2.2.2 (by decide)).2.2.2.2⟩)
    (((delete_authorization sampleState "7" "alice" "pw" (sampleUser "alice" [])
      (by decide)).2 (sampleJob "7" "") (by decide)).2 (by decide)),
   ((delete_authorization sampleState "7" "bob" "pw" (sampleUser "bob" [])
      (by decide)).2 (sampleJob "7" "") (by decide)).1 (by decide),
   (delete_authorization sampleState "8" "alice" "pw" (sampleUser "alice" [])
      (by decide)).1 (by decide)⟩

/-- C8 (create postcondition). For every state, every authenticated requester,
named by the username of the record `AuthUser` returns, and every well-formed
request, with `X` the identifier generated from the clock: if `X` is not in the
job snapshot, `postJob` returns `X`, the job snapshot becomes the old one plus the
entry `X` holding the given description and image reference, the requester as
author and an empty runner, the authored sequence of the author becomes the old
one with `X` appended at the end, and no other user record changes; if `X` is
already in the snapshot, the request is refused with "Job already exists" and
nothing is overwritten. -/
theorem create_postcondition (s : State) (r : PostJobRequest) (name pass : String)
    (user : User) (jobData : postJobStruct)
    (hauth : r.basicAuth = some (name, pass))
    (hu : AuthUser s.users name pass = some user)
    (hbody : r.bodyErr = none) (hct : r.contentType = "application/json")
    (hdata : r.jobData = .ok jobData) :
    (toString r.now ∉ s.jobs →
      (postJob s r).1 = .successCreated (toString r.now) ∧
      (postJob s r).2.jobs = s.jobs.insert (toString r.now)
        { ID := toString r.now, Description := jobData.Description,
          ImageLocation := jobData.ImageLocation, Author := user.Username,
          Runner := "" } ∧
      (∀ k, k ≠ toString r.now → (postJob s r).2.jobs.lookup k = s.jobs.lookup k) ∧
      (postJob s r).2.users.lookup user.Username
        = some { user with Authored := user.Authored ++ [toString r.now] } ∧
      (∀ k, k ≠ user.Username → (postJob s r).2.users.lookup k = s.users.lookup k)) ∧
    (toString r.now ∈ s.jobs →
      postJob s r = (.badRequest "Job already exists", s)) := by
  refine ⟨fun hfresh => ?_, fun hold => ?_⟩
  · rw [postJob_success hauth hu hbody hct hdata hfresh]
    refine ⟨rfl, rfl, fun k hk => ?_, Finmap.lookup_insert _, fun k hk => ?_⟩
    · exact Finmap.lookup_insert_of_ne _ hk
    · exact Finmap.lookup_insert_of_ne _ hk
  · simp [postJob, hauth, hu, hbody, hct, hdata, newJob, hold]

/-- Witness of `create_postcondition`: `alice` posts a job at clock reading 8
(fresh) and at clock reading 7 (taken) in `sampleState`. -/
theorem create_postcondition_witness :
    ((postJob sampleState (sampleCreate 8)).1 = .successCreated "8" ∧
      (postJob sampleState (sampleCreate 8)).2.jobs = sampleState.jobs.insert "8"
        { ID := "8", Description := "fix fence", ImageLocation := "img://1",
          Author := "alice", Runner := "" } ∧
      (postJob sampleState (sampleCreate 8)).2.users.lookup "alice"
        = some { sampleUser "alice" [] with Authored := ["8"] }) ∧
    postJob sampleState (sampleCreate 7)
      = (.badRequest "Job already exists", sampleState) :=
  ⟨(fun h => ⟨h.1, h.2.1, h.2.2.2.1⟩)
    ((create_postcondition sampleState (sampleCreate 8) "alice" "pw"
      (sampleUser "alice" []) ⟨"fix fence", "img://1"⟩ rfl (by decide)
      rfl rfl rfl).1 (by decide)),
   (create_postcondition sampleState (sampleCreate 7) "alice" "pw"
      (sampleUser "alice" []) ⟨"fix fence", "img://1"⟩ rfl (by decide)
      rfl rfl rfl).2 (by decide)⟩

/-! ## Effect of one call -/

theorem postJob_effect (s : State) (r : PostJobRequest) :
    (postJob s r).2 = s ∨
    ∃ username pass user jobData,
      AuthUser s.users username pass = some user ∧ toString r.now ∉ s.jobs ∧
      (postJob s r).2
        = { jobs := s.jobs.insert (toString r.now)
              (newJob jobData user.Username r.now),
            users := s.users.insert user.Username
              { user with Authored := user.Authored ++ [toString r.now] } } := by
  cases hauth : r.basicAuth with
  | none => left; simp [postJob, hauth]
  | some cred =>
    obtain ⟨username, pass⟩ := cred
    cases hu : AuthUser s.users username pass with
    | none => left; simp [postJob, hauth, hu]
    | some user =>
      cases hbody : r.bodyErr with
      | some err => left; simp [postJob, hauth, hu, hbody]
      | none =>
        by_cases hct : r.contentType = "application/json"
        · cases hdata : r.jobData with
          | error err => left; simp [postJob, hauth, hu, hbody, hct, hdata]
          | ok jobData =>
            by_cases hfresh : toString r.now ∈ s.jobs
            · left; simp [postJob, hauth, hu, hbody, hct, hdata, newJob, hfresh]
            · right
              exact ⟨username, pass, user, jobData, hu, hfresh,
                by rw [postJob_success hauth hu hbody hct hdata hfresh]⟩
        · left; simp [postJob, hauth, hu, hbody, hct]

theorem deleteJob_effect (s : State) (auth : Option (String × String)) (id : String) :
    (deleteJob s auth id).2 = s ∨
    ∃ job, s.jobs.lookup id = some job ∧
      (deleteJob s auth id).2 = { s with jobs := s.jobs.erase job.ID } := by
  cases auth with
  | none => left; rfl
  | some cred =>
    obtain ⟨username, pass⟩ := cred
    cases hu : AuthUser s.users username pass with
    | none => left; simp [deleteJob, hu]
    | some user =>
      cases hjob : s.jobs.lookup id with
      | none => left; simp [deleteJob, hu, hjob]
      | some job =>
        by_cases hauthor : job.Author = user.Username
        · right
          exact ⟨job, rfl, by rw [deleteJob_success hu hjob hauthor]⟩
        · left; simp [deleteJob, hu, hjob, hauthor]

theorem putJobCheckout_effect (s : State) (auth : Option (String × String))
    (id : String) :
    (putJobCheckout s auth id).2 = s ∨
    ∃ username pass user job,
      AuthUser s.users username pass = some user ∧ s.jobs.lookup id = some job ∧
      job.Runner = "" ∧
      (putJobCheckout s auth id).2
        = { jobs := s.jobs.insert id { job with Runner := username },
            users := s.users.insert username
              { user with Running := user.Running ++ [id] } } := by
  cases auth with
  | none => left; rfl
  | some cred =>
    obtain ⟨username, pass⟩ := cred
    cases hu : AuthUser s.users username pass with
    | none => left; simp [putJobCheckout, hu]
    | some user =>
      cases hjob : s.jobs.lookup id with
      | none => left; simp [putJobCheckout, hu, hjob]
      | some job =>
        by_cases hrun : job.Runner = ""
        · right
          exact ⟨username, pass, user, job, hu, rfl, hrun,
            by rw [putJobCheckout_success hu hjob hrun]⟩
        · left; rw [putJobCheckout_conflict hu hjob hrun]

theorem putJobCheckin_effect (s : State) (auth : Option (String × String))
    (id : String) :
    (putJobCheckin s auth id).2 = s ∨
    ∃ username pass user job,
      AuthUser s.users username pass = some user ∧ s.jobs.lookup id = some job ∧
      job.Runner = username ∧
      (putJobCheckin s auth id).2
        = { jobs := s.jobs.insert job.ID { job with Runner := "" },
            users := s.users.insert username
              { user with Running := removeRunning id user.Running } } := by
  cases auth with
  | none => left; rfl
  | some cred =>
    obtain ⟨username, pass⟩ := cred
    cases hu : AuthUser s.users username pass with
    | none => left; simp [putJobCheckin, hu]
    | some user =>
      cases hjob : s.jobs.lookup id with
      | none => left; simp [putJobCheckin, hu, hjob]
      | some job =>
        by_cases hrun : job.Runner = username
        · right
          exact ⟨username, pass, user, job, hu, rfl, hrun,
            by rw [putJobCheckin_success hu hjob hrun]⟩
        · left; rw [putJobCheckin_conflict hu hjob hrun]

/-! ## Lookups after an update -/

theorem lookup_insert_eq {β : Type} (m : Finmap (fun _ : String => β)) (k : String)
    (v : β) (k' : String) :
    (m.insert k v).lookup k' = if k' = k then some v else m.lookup k' := by
  by_cases h : k' = k
  · subst h; simp
  · simp [h, Finmap.lookup_insert_of_ne]

theorem lookup_erase_eq {β : Type} (m : Finmap (fun _ : String => β)) (k k' : String) :
    (m.erase k).lookup k' = if k' = k then none else m.lookup k' := by
  by_cases h : k' = k
  · subst h; simp
  · simp [h, Finmap.lookup_erase_ne]

theorem Runs_insert (users : UserMap) (a : String) (user' : User) (u x : String) :
    Runs (users.insert a user') u x ↔
      (u = a ∧ x ∈ user'.Running) ∨ (u ≠ a ∧ Runs users u x) := by
  unfold Runs
  rw [lookup_insert_eq]
  by_cases h : u = a
  · subst h
    simp
  · simp [h]

theorem Runs_of_lookup {users : UserMap} {u x : String} {user : User}
    (h : users.lookup u = some user) : Runs users u x ↔ x ∈ user.Running := by
  unfold Runs
  rw [h]
  simp

theorem JobsKeyed_insert {jobs : JobMap} {k : String} {job : Job}
    (h : JobsKeyed jobs) (hk : job.ID = k) : JobsKeyed (jobs.insert k job) := by
  intro k' j hj
  rw [lookup_insert_eq] at hj
  by_cases e : k' = k
  · rw [if_pos e] at hj
    cases hj
    rw [e]; exact hk
  · rw [if_neg e] at hj
    exact h k' j hj

theorem JobsKeyed_erase {jobs : JobMap} {k : String} (h : JobsKeyed jobs) :
    JobsKeyed (jobs.erase k) := by
  intro k' j hj
  rw [lookup_erase_eq] at hj
  by_cases e : k' = k
  · rw [if_pos e] at hj; cases hj
  · rw [if_neg e] at hj; exact h k' j hj

theorem UsersKeyed_insert {users : UserMap} {k : String} {user : User}
    (h : UsersKeyed users) (hk : user.Username = k) :
    UsersKeyed (users.insert k user) := by
  intro k' u hu
  rw [lookup_insert_eq] at hu
  by_cases e : k' = k
  · rw [if_pos e] at hu
    cases hu
    rw [e]; exact hk
  · rw [if_neg e] at hu
    exact h k' u hu

theorem mem_removeRunning_of_ne {id x : String} {running : List String}
    (hx : x ≠ id) : x ∈ removeRunning id running ↔ x ∈ running := by
  rw [(removeRunning_perm_erase id running).mem_iff]
  exact List.mem_erase_of_ne hx

theorem not_mem_removeRunning_of_nodup {id : String} {running : List String}
    (h : running.Nodup) : id ∉ removeRunning id running := by
  rw [(removeRunning_perm_erase id running).mem_iff]
  exact h.not_mem_erase

theorem nodup_removeRunning {id : String} {running : List String}
    (h : running.Nodup) : (removeRunning id running).Nodup := by
  rw [(removeRunning_perm_erase id running).nodup_iff]
  exact h.erase id

/-! ## The converse invariant -/

theorem step_create (s : State) (r : PostJobRequest) :
    step s (.create r) = (postJob s r).2 := rfl

theorem step_delete (s : State) (auth : Option (String × String)) (id : String) :
    step s (.delete auth id) = (deleteJob s auth id).2 := rfl

theorem step_checkout (s : State) (auth : Option (String × String)) (id : String) :
    step s (.checkout auth id) = (putJobCheckout s auth id).2 := rfl

theorem step_checkin (s : State) (auth : Option (String × String)) (id : String) :
    step s (.checkin auth id) = (putJobCheckin s auth id).2 := rfl

theorem step_preserves_claims (s : State) (c : Call) (hj : JobsKeyed s.jobs)
    (hu : UsersKeyed s.users) (hc : NoClaimLost s) :
    JobsKeyed (step s c).jobs ∧ UsersKeyed (step s c).users ∧ NoClaimLost (step s c) := by
  cases c with
  | create r =>
    rw [step_create]
    rcases postJob_effect s r with h | ⟨username, pass, user, jobData, hau, _, h⟩
    · rw [h]; exact ⟨hj, hu, hc⟩
    · have hlk := (AuthUser_eq_some.mp hau).1
      have hkey : user.Username = username := hu username user hlk
      rw [h]
      refine ⟨JobsKeyed_insert hj rfl, UsersKeyed_insert hu rfl, ?_⟩
      intro k j hjk hne
      simp only at hjk
      rw [lookup_insert_eq] at hjk
      by_cases e : k = toString r.now
      · rw [if_pos e] at hjk
        cases hjk
        exact absurd rfl hne
      · rw [if_neg e] at hjk
        obtain ⟨hid, hr⟩ := hc k j hjk hne
        refine ⟨hid, ?_⟩
        simp only
        rw [Runs_insert]
        by_cases e2 : j.Runner = user.Username
        · left
          refine ⟨e2, ?_⟩
          rw [e2, hkey] at hr
          exact (Runs_of_lookup hlk).mp hr
        · right; exact ⟨e2, hr⟩
  | delete auth id =>
    rw [step_delete]
    rcases deleteJob_effect s auth id with h | ⟨job, _, h⟩
    · rw [h]; exact ⟨hj, hu, hc⟩
    · rw [h]
      refine ⟨JobsKeyed_erase hj, hu, ?_⟩
      intro k j hjk hne
      simp only at hjk
      rw [lookup_erase_eq] at hjk
      by_cases e : k = job.ID
      · rw [if_pos e] at hjk; cases hjk
      · rw [if_neg e] at hjk
        exact hc k j hjk hne
  | checkout auth id =>
    rw [step_checkout]
    rcases putJobCheckout_effect s auth id with h | ⟨username, pass, user, job, hau, hjob, _, h⟩
    · rw [h]; exact ⟨hj, hu, hc⟩
    · have hlk := (AuthUser_eq_some.mp hau).1
      rw [h]
      refine ⟨JobsKeyed_insert hj (hj id job hjob),
        UsersKeyed_insert hu (hu username user hlk), ?_⟩
      intro k j hjk hne
      simp only at hjk
      rw [lookup_insert_eq] at hjk
      simp only
      rw [Runs_insert]
      by_cases e : k = id
      · rw [if_pos e] at hjk
        cases hjk
        refine ⟨by rw [e]; exact hj id job hjob, Or.inl ⟨rfl, ?_⟩⟩
        rw [e]; simp
      · rw [if_neg e] at hjk
        obtain ⟨hid, hr⟩ := hc k j hjk hne
        refine ⟨hid, ?_⟩
        by_cases e2 : j.Runner = username
        · left
          refine ⟨e2, ?_⟩
          rw [e2] at hr
          exact List.mem_append_left _ ((Runs_of_lookup hlk).mp hr)
        · right; exact ⟨e2, hr⟩
  | checkin auth id =>
    rw [step_checkin]
    rcases putJobCheckin_effect s auth id with h | ⟨username, pass, user, job, hau, hjob, _, h⟩
    · rw [h]; exact ⟨hj, hu, hc⟩
    · have hlk := (AuthUser_eq_some.mp hau).1
      have hid : job.ID = id := hj id job hjob
      rw [h]
      refine ⟨JobsKeyed_insert hj rfl, UsersKeyed_insert hu (hu username user hlk), ?_⟩
      intro k j hjk hne
      simp only at hjk
      rw [lookup_insert_eq] at hjk
      simp only
      rw [Runs_insert]
      by_cases e : k = job.ID
      · rw [if_pos e] at hjk
        cases hjk
        exact absurd rfl hne
      · rw [if_neg e] at hjk
        obtain ⟨hid', hr⟩ := hc k j hjk hne
        refine ⟨hid', ?_⟩
        by_cases e2 : j.Runner = username
        · left
          refine ⟨e2, ?_⟩
          rw [e2] at hr
          have hk : k ≠ id := by rw [← hid]; exact e
          exact (mem_removeRunning_of_ne hk).mpr ((Runs_of_lookup hlk).mp hr)
        · right; exact ⟨e2, hr⟩

theorem run_preserves_claims (calls : List Call) (s : State) (hj : JobsKeyed s.jobs)
    (hu : UsersKeyed s.users) (hc : NoClaimLost s) : NoClaimLost (run s calls) := by
  induction calls generalizing s with
  | nil => exact hc
  | cons c calls ih =>
    obtain ⟨hj', hu', hc'⟩ := step_preserves_claims s c hj hu hc
    exact ih (step s c) hj' hu' hc'

theorem JobsKeyed_empty : JobsKeyed ∅ := by
  intro k job h
  rw [Finmap.lookup_empty] at h
  cases h

theorem emptyState_empty : EmptyStores emptyState := by
  refine ⟨rfl, ?_, ?_⟩
  · intro k user h
    simp only [emptyState, sampleUsers, lookup_insert_eq, Finmap.lookup_empty] at h
    split_ifs at h with h1 h2 h3
    · cases h; rw [h1]; rfl
    · cases h; rw [h2]; rfl
    · cases h; rw [h3]; rfl
  · intro k user h
    simp only [emptyState, sampleUsers, lookup_insert_eq, Finmap.lookup_empty] at h
    split_ifs at h with h1 h2 h3
    · cases h; rfl
    · cases h; rfl
    · cases h; rfl

/-- C10 (no claim is lost). In every state reached from empty stores by a
finite sequence of create, delete, checkout and checkin calls executed one at a
time, every job whose runner is a non-empty user `u` has its identifier in the
running sequence of `u`; and the removal loop of the checkin removes exactly
one occurrence of `id` and keeps every other entry: as a multiset its result is
the running sequence with one `id` erased. -/
theorem no_claim_lost (s0 : State) (calls : List Call) (h0 : EmptyStores s0)
    (id : String) (running : List String) :
    NoClaimLost (run s0 calls) ∧
    (removeRunning id running : Multiset String) = (running : Multiset String).erase id := by
  constructor
  · apply run_preserves_claims calls s0 _ h0.2.1
    · intro k job hk
      rw [h0.1, Finmap.lookup_empty] at hk
      cases hk
    · rw [h0.1]; exact JobsKeyed_empty
  · rw [Multiset.coe_erase, Multiset.coe_eq_coe]
    exact removeRunning_perm_erase id running

/-- Witness of `no_claim_lost` on the scenario `sampleCalls`. -/
theorem no_claim_lost_witness :
    NoClaimLost (run emptyState sampleCalls) ∧
    (removeRunning "7" ["7", "8", "9"] : Multiset String)
      = (["7", "8", "9"] : Multiset String).erase "7" :=
  no_claim_lost emptyState sampleCalls emptyState_empty "7" ["7", "8", "9"]

/-! ## The cross-store invariant over the jobs still stored -/

theorem mem_of_Runs {users : UserMap} {u x : String} (h : Runs users u x) :
    u ∈ users := by
  obtain ⟨user, hlk, _⟩ := h
  exact Finmap.mem_of_lookup_eq_some hlk

theorem Runs_insert_same {users : UserMap} {a : String} {user : User}
    (user' : User) (hlk : users.lookup a = some user) (hR : user'.Running = user.Running)
    (u x : String) : Runs (users.insert a user') u x ↔ Runs users u x := by
  rw [Runs_insert]
  by_cases h : u = a
  · subst h
    rw [Runs_of_lookup hlk, hR]
    simp
  · simp [h]

theorem not_mem_insert_empty_name {users : UserMap} {a : String} {user user' : User}
    (hn : "" ∉ users) (hlk : users.lookup a = some user) :
    "" ∉ users.insert a user' := by
  intro hm
  rw [Finmap.mem_insert] at hm
  rcases hm with e | hm
  · apply hn
    rw [e]
    exact Finmap.mem_of_lookup_eq_some hlk
  · exact hn hm

theorem Strengthened_mono {s : State} {used used' : List String}
    (h : Strengthened s used) (hsub : ∀ x, x ∈ used → x ∈ used') :
    Strengthened s used' := by
  obtain ⟨hj, hu, hn, hjk, hrk, hnd, hrcl⟩ := h
  exact ⟨hj, hu, hn, fun k hk => hsub k (hjk k hk),
    fun u x hr => hsub x (hrk u x hr), hnd, hrcl⟩

theorem Strengthened_create (s : State) (used : List String) (r : PostJobRequest)
    (h : Strengthened s used) (hX : toString r.now ∉ used) :
    Strengthened (postJob s r).2 (toString r.now :: used) := by
  rcases postJob_effect s r with e | ⟨username, pass, user, jobData, hau, _, e⟩
  · rw [e]
    exact Strengthened_mono h (fun x hx => List.mem_cons_of_mem _ hx)
  · obtain ⟨hj, hu, hn, hjk, hrk, hnd, hrcl⟩ := h
    have hlk0 := (AuthUser_eq_some.mp hau).1
    have hkey : user.Username = username := hu username user hlk0
    have hlk : s.users.lookup user.Username = some user := by rw [hkey]; exact hlk0
    have hR := Runs_insert_same
      { user with Authored := user.Authored ++ [toString r.now] } hlk rfl
    rw [e]
    refine ⟨JobsKeyed_insert hj rfl, UsersKeyed_insert hu rfl,
      not_mem_insert_empty_name hn hlk, ?_, ?_, ?_, ?_⟩
    · intro k hk
      dsimp only at hk
      rw [Finmap.mem_insert] at hk
      rcases hk with hk | hk
      · rw [hk]; exact List.mem_cons_self _ _
      · exact List.mem_cons_of_mem _ (hjk k hk)
    · intro u x hr
      dsimp only at hr
      rw [hR] at hr
      exact List.mem_cons_of_mem _ (hrk u x hr)
    · intro u usr hl
      dsimp only at hl
      rw [lookup_insert_eq] at hl
      by_cases hua : u = user.Username
      · rw [if_pos hua] at hl
        cases hl
        exact hnd _ user hlk
      · rw [if_neg hua] at hl
        exact hnd u usr hl
    · intro x u hr
      dsimp only at hr ⊢
      rw [hR] at hr
      obtain ⟨ha, hb⟩ := hrcl x u hr
      refine ⟨fun v hv => ha v ((hR v x).mp hv), fun job hjob => ?_⟩
      rw [lookup_insert_eq] at hjob
      by_cases hx : x = toString r.now
      · exact absurd (hx ▸ hrk u x hr) hX
      · rw [if_neg hx] at hjob
        exact hb job hjob

theorem Strengthened_delete (s : State) (used : List String)
    (auth : Option (String × String)) (id : String) (h : Strengthened s used) :
    Strengthened (deleteJob s auth id).2 used := by
  rcases deleteJob_effect s auth id with e | ⟨job, _, e⟩
  · rw [e]; exact h
  · obtain ⟨hj, hu, hn, hjk, hrk, hnd, hrcl⟩ := h
    rw [e]
    refine ⟨JobsKeyed_erase hj, hu, hn, ?_, hrk, hnd, ?_⟩
    · intro k hk
      dsimp only at hk
      rw [Finmap.mem_erase] at hk
      exact hjk k hk.2
    · intro x u hr
      obtain ⟨ha, hb⟩ := hrcl x u hr
      refine ⟨ha, fun job' hjob' => ?_⟩
      dsimp only at hjob'
      rw [lookup_erase_eq] at hjob'
      by_cases hx : x = job.ID
      · rw [if_pos hx] at hjob'; cases hjob'
      · rw [if_neg hx] at hjob'
        exact hb job' hjob'

theorem Strengthened_checkout (s : State) (used : List String)
    (auth : Option (String × String)) (id : String) (h : Strengthened s used) :
    Strengthened (putJobCheckout s auth id).2 used := by
  rcases putJobCheckout_effect s auth id with
    e | ⟨username, pass, user, job, hau, hjob, hrun, e⟩
  · rw [e]; exact h
  · obtain ⟨hj, hu, hn, hjk, hrk, hnd, hrcl⟩ := h
    have hlk := (AuthUser_eq_some.mp hau).1
    have hnobody : ∀ v, ¬ Runs s.users v id := by
      intro v hv
      have hv' := (hrcl id v hv).2 job hjob
      rw [hrun] at hv'
      apply hn
      rw [hv']
      exact mem_of_Runs hv
    have hidmem : id ∈ s.jobs := Finmap.mem_of_lookup_eq_some hjob
    have hR : ∀ u x, Runs (s.users.insert username
        { user with Running := user.Running ++ [id] }) u x ↔
        Runs s.users u x ∨ (u = username ∧ x = id) := by
      intro u x
      rw [Runs_insert]
      by_cases hua : u = username
      · subst hua
        rw [Runs_of_lookup hlk]
        simp [List.mem_append]
      · simp [hua]
    rw [e]
    refine ⟨JobsKeyed_insert hj (hj id job hjob),
      UsersKeyed_insert hu (hu username user hlk),
      not_mem_insert_empty_name hn hlk, ?_, ?_, ?_, ?_⟩
    · intro k hk
      dsimp only at hk
      rw [Finmap.mem_insert] at hk
      rcases hk with hk | hk
      · rw [hk]; exact hjk id hidmem
      · exact hjk k hk
    · intro u x hr
      dsimp only at hr
      rw [hR] at hr
      rcases hr with hr | ⟨_, hx⟩
      · exact hrk u x hr
      · rw [hx]; exact hjk id hidmem
    · intro u usr hl
      dsimp only at hl
      rw [lookup_insert_eq] at hl
      by_cases hua : u = username
      · rw [if_pos hua] at hl
        cases hl
        have hnotin : id ∉ user.Running := fun hm =>
          hnobody username ((Runs_of_lookup hlk).mpr hm)
        exact List.Nodup.append (hnd username user hlk) (List.nodup_singleton id)
          (by simpa using hnotin)
      · rw [if_neg hua] at hl
        exact hnd u usr hl
    · intro x u hr
      dsimp only at hr ⊢
      rw [hR] at hr
      rcases hr with hr | ⟨hua, hx⟩
      · have hx : x ≠ id := fun hx => hnobody u (hx ▸ hr)
        obtain ⟨ha, hb⟩ := hrcl x u hr
        refine ⟨fun v hv => ?_, fun job' hjob' => ?_⟩
        · rw [hR] at hv
          rcases hv with hv | ⟨_, hx'⟩
          · exact ha v hv
          · exact absurd hx' hx
        · rw [lookup_insert_eq, if_neg hx] at hjob'
          exact hb job' hjob'
      · subst hua hx
        refine ⟨fun v hv => ?_, fun job' hjob' => ?_⟩
        · rw [hR] at hv
          rcases hv with hv | ⟨hv, _⟩
          · exact absurd hv (hnobody v)
          · exact hv
        · rw [lookup_insert_eq, if_pos rfl] at hjob'
          cases hjob'
          rfl

theorem Strengthened_checkin (s : State) (used : List String)
    (auth : Option (String × String)) (id : String) (h : Strengthened s used) :
    Strengthened (putJobCheckin s auth id).2 used := by
  rcases putJobCheckin_effect s auth id with
    e | ⟨username, pass, user, job, hau, hjob, hrun, e⟩
  · rw [e]; exact h
  · obtain ⟨hj, hu, hn, hjk, hrk, hnd, hrcl⟩ := h
    have hlk := (AuthUser_eq_some.mp hau).1
    have hid : job.ID = id := hj id job hjob
    have hidmem : id ∈ s.jobs := Finmap.mem_of_lookup_eq_some hjob
    have hR : ∀ u x, Runs (s.users.insert username
        { user with Running := removeRunning id user.Running }) u x ↔
        Runs s.users u x ∧ ¬ (u = username ∧ x = id) := by
      intro u x
      rw [Runs_insert]
      by_cases hua : u = username
      · subst hua
        rw [Runs_of_lookup hlk]
        by_cases hx : x = id
        · subst hx
          have := @not_mem_removeRunning_of_nodup x _ (hnd u user hlk)
          simp [this]
        · simp [hx, mem_removeRunning_of_ne hx]
      · simp [hua]
    rw [e]
    refine ⟨JobsKeyed_insert hj rfl, UsersKeyed_insert hu (hu username user hlk),
      not_mem_insert_empty_name hn hlk, ?_, ?_, ?_, ?_⟩
    · intro k hk
      dsimp only at hk
      rw [Finmap.mem_insert] at hk
      rcases hk with hk | hk
      · rw [hk, hid]; exact hjk id hidmem
      · exact hjk k hk
    · intro u x hr
      dsimp only at hr
      rw [hR] at hr
      exact hrk u x hr.1
    · intro u usr hl
      dsimp only at hl
      rw [lookup_insert_eq] at hl
      by_cases hua : u = username
      · rw [if_pos hua] at hl
        cases hl
        exact nodup_removeRunning (hnd username user hlk)
      · rw [if_neg hua] at hl
        exact hnd u usr hl
    · intro x u hr
      dsimp only at hr ⊢
      rw [hR] at hr
      obtain ⟨hr, hnot⟩ := hr
      obtain ⟨ha, hb⟩ := hrcl x u hr
      refine ⟨fun v hv => ha v ((hR v x).mp hv).1, fun job' hjob' => ?_⟩
      rw [lookup_insert_eq] at hjob'
      by_cases hx : x = job.ID
      · exfalso
        rw [hid] at hx
        subst hx
        have hu' := hb job hjob
        rw [hrun] at hu'
        exact hnot ⟨hu'.symm, rfl⟩
      · rw [if_neg hx] at hjob'
        exact hb job' hjob'

theorem run_Strengthened (calls : List Call) :
    ∀ (s : State) (used : List String), Strengthened s used →
      (createdIds calls).Nodup → (∀ x, x ∈ createdIds calls → x ∉ used) →
      ∃ used', Strengthened (run s calls) used' := by
  induction calls with
  | nil => intro s used h _ _; exact ⟨used, h⟩
  | cons c calls ih =>
    intro s used h hnd hfresh
    cases c with
    | create r =>
      have hnd' : toString r.now ∉ createdIds calls ∧ (createdIds calls).Nodup :=
        List.nodup_cons.mp hnd
      apply ih (step s (.create r)) (toString r.now :: used)
        (Strengthened_create s used r h (hfresh _ (List.mem_cons_self _ _))) hnd'.2
      intro x hx hmem
      rcases List.mem_cons.mp hmem with hm | hm
      · exact hnd'.1 (hm ▸ hx)
      · exact hfresh x (List.mem_cons_of_mem _ hx) hm
    | delete auth id =>
      exact ih (step s (.delete auth id)) used (Strengthened_delete s used auth id h)
        hnd hfresh
    | checkout auth id =>
      exact ih (step s (.checkout auth id)) used
        (Strengthened_checkout s used auth id h) hnd hfresh
    | checkin auth id =>
      exact ih (step s (.checkin auth id)) used
        (Strengthened_checkin s used auth id h) hnd hfresh

theorem Strengthened_of_empty {s : State} (h0 : EmptyStores s) (hn : "" ∉ s.users) :
    Strengthened s [] := by
  obtain ⟨hjobs, hu, hrun⟩ := h0
  have hnoruns : ∀ u x, ¬ Runs s.users u x := by
    rintro u x ⟨user, hlk, hx⟩
    rw [hrun u user hlk] at hx
    cases hx
  refine ⟨?_, hu, hn, ?_, ?_, ?_, ?_⟩
  · rw [hjobs]; exact JobsKeyed_empty
  · intro k hk
    rw [hjobs] at hk
    exact absurd hk Finmap.not_mem_empty
  · intro u x hr
    exact absurd hr (hnoruns u x)
  · intro u user hlk
    rw [hrun u user hlk]
    exact List.nodup_nil
  · intro x u hr
    exact absurd hr (hnoruns u x)

theorem sentinelEmptyState_empty : EmptyStores sentinelEmptyState := by
  refine ⟨rfl, ?_, ?_⟩
  · intro k user h
    simp only [sentinelEmptyState, lookup_insert_eq, Finmap.lookup_empty] at h
    split_ifs at h with h1 h2 h3
    · cases h; rw [h1]; rfl
    · cases h; rw [h2]; rfl
    · cases h; rw [h3]; rfl
  · intro k user h
    simp only [sentinelEmptyState, lookup_insert_eq, Finmap.lookup_empty] at h
    split_ifs at h with h1 h2 h3
    · cases h; rfl
    · cases h; rfl
    · cases h; rfl

/-- C9 as stated fails. From empty stores, `alice` creates job `7`, `bob` checks
it out and `alice` deletes it: `7` stays in the running sequence of `bob` while
no job is stored under `7`. And when a user is registered under the empty
username, a checkout of `7` by that user leaves the runner empty, `bob` checks
`7` out next, and both running sequences hold `7`. -/
theorem delete_leaves_dangling_running :
    (EmptyStores emptyState ∧
      Runs (run emptyState danglingCalls).users "bob" "7" ∧
      (run emptyState danglingCalls).jobs.lookup "7" = none ∧
      ¬ RunningConsistent (run emptyState danglingCalls)) ∧
    (EmptyStores sentinelEmptyState ∧
      Runs (run sentinelEmptyState sentinelCalls).users "" "7" ∧
      Runs (run sentinelEmptyState sentinelCalls).users "bob" "7" ∧
      ¬ RunningConsistent (run sentinelEmptyState sentinelCalls)) := by
  have hbob : Runs (run emptyState danglingCalls).users "bob" "7" :=
    ⟨sampleUser "bob" ["7"], by decide, by decide⟩
  have hnone : (run emptyState danglingCalls).jobs.lookup "7" = none := by decide
  have hnobody : Runs (run sentinelEmptyState sentinelCalls).users "" "7" :=
    ⟨sampleUser "" ["7"], by decide, by decide⟩
  have hbob' : Runs (run sentinelEmptyState sentinelCalls).users "bob" "7" :=
    ⟨sampleUser "bob" ["7"], by decide, by decide⟩
  refine ⟨⟨emptyState_empty, hbob, hnone, ?_⟩,
    ⟨sentinelEmptyState_empty, hnobody, hbob', ?_⟩⟩
  · intro h
    obtain ⟨job, hjob, _⟩ := (h "7" "bob" hbob).2
    rw [hnone] at hjob
    cases hjob
  · intro h
    have := (h "7" "bob" hbob').1 "" hnobody
    exact absurd this (by decide)

/-- C9 (cross-store consistency, sequential), amended. In every state reached
from empty stores in which nobody is registered under the empty username, by a
finite sequence of create, delete, checkout and checkin calls executed one at a
time whose generated identifiers are pairwise distinct, each identifier appears
in the running sequence of at most one user, and whenever a job is still stored
under that identifier, that user is its runner. -/
theorem running_consistent_live (s0 : State) (calls : List Call)
    (h0 : EmptyStores s0) (hname : "" ∉ s0.users)
    (hfresh : (createdIds calls).Nodup) :
    RunningConsistentLive (run s0 calls) := by
  obtain ⟨used, h⟩ := run_Strengthened calls s0 [] (Strengthened_of_empty h0 hname)
    hfresh (fun x _ hx => by cases hx)
  exact h.2.2.2.2.2.2

/-- Witness of `running_consistent_live` on the scenario `sampleCalls`. -/
theorem running_consistent_live_witness :
    RunningConsistentLive (run emptyState sampleCalls) :=
  running_consistent_live emptyState sampleCalls emptyState_empty (by decide)
    (by decide)

end DonateAPI
